import Mathlib

/-!
Verification development for the `uvic-music-extractor` feature-extraction
core (`src/uvic_music_extractor/extractors.py`).

The Python code is shallowly embedded over an arbitrary linear ordered field
`K` (instantiated at `ℚ` for executable checks and at `ℝ` where square roots
are needed).  The DSP-toolkit collaborators (essentia algorithms, scipy's
Gaussian density, numpy's Pearson correlation) are uninterpreted function
symbols collected in a `DSP` record, exactly as the specification treats
them (their internals are out of scope; only their input/output shapes
matter).  Everything written in the Python source itself — the extractor
classes, their control flow, the pooling/aggregation plumbing, numpy
histogramming, means, counting and elementwise arithmetic — is translated
directly.

Python failure modes are modelled with `Except PyErr`: a missing attribute
read is `attributeErr`, a missing pool/aggregation key is `keyErr`, invalid
numpy indexing is `indexErr`, handing a collaborator a buffer of the wrong
shape is `typeErr`, and numpy reductions over empty arrays are `valueErr`.
IEEE special values produced by 0/0 and x/0 are modelled by `FloatVal`
(`nan`, `inf`, `neginf`, or a finite value).
-/

set_option maxRecDepth 10000

namespace Uvic

/-- Python-level failure modes of the extractor code. -/
inductive PyErr : Type where
  | attributeErr : PyErr
  | keyErr : PyErr
  | indexErr : PyErr
  | typeErr : PyErr
  | valueErr : PyErr
deriving DecidableEq, Repr

/-- An IEEE-754-style value: a finite number or one of the special values
produced by degenerate divisions (`0/0 → nan`, `x/0 → ±inf`). -/
inductive FloatVal (K : Type) : Type where
  | nan : FloatVal K
  | inf : FloatVal K
  | neginf : FloatVal K
  | val : K → FloatVal K
deriving DecidableEq, Repr

/-- A decoded audio buffer: one channel or two parallel channels. -/
inductive Buffer (K : Type) : Type where
  | mono : List K → Buffer K
  | stereo : List (K × K) → Buffer K
deriving DecidableEq, Repr

/-- Uninterpreted DSP-primitive collaborators (essentia / scipy / numpy
routines whose internals are out of scope).  Each field mirrors one
collaborator contract from §6 of the spec, with configuration parameters
(range, sample rate, band edges, cutoff) passed as leading arguments. -/
structure DSP (K : Type) : Type where
  window : List K → List K
  spectrumMag : List K → List K
  centroid : K → List K → K
  centralMoments : K → List K → K × K × K
  distShape : K × K × K → K × K × K
  flatness : List K → K
  entropy : List K → K
  energyBandRatio : K → K → K → List K → K
  rolloff : K → K → List K → K
  rms : List K → K
  minval : List K → K
  maxval : List K → K
  ebur128 : K → List (K × K) → List K × List K × K × K
  truePeak : K → List K → List K
  vickers : List K → K
  aggStat : String → List K → K
  corrcoef : List K → List K → K
  percentile : K → List K → K
  log10 : K → K
  pow10 : K → K
  normPdf : K → K → K → K

section Defs

variable {K : Type} [LinearOrderedField K]

/-- Explicit `Except` bind (used instead of do-notation so proofs can unfold
the control flow of each translated method step by step). -/
def eb {α β : Type} (e : Except PyErr α) (f : α → Except PyErr β) : Except PyErr β :=
  match e with
  | .error err => .error err
  | .ok a => f a

/-- Sequential evaluation of a Python list comprehension whose body may
raise: first failure aborts, otherwise the results are collected in order. -/
def mapME {α β : Type} (f : α → Except PyErr β) : List α → Except PyErr (List β)
  | [] => .ok []
  | a :: t => eb (f a) fun b => eb (mapME f t) fun r => .ok (b :: r)

/-- Model of `numpy.ndarray.max()`: raises on an empty array, otherwise the maximum. -/
def listMax (xs : List K) : Except PyErr K :=
  match xs with
  | [] => .error .valueErr
  | h :: t => .ok (t.foldl max h)

/-- Total maximum of a list (meaningful on nonempty lists). -/
def npMax (xs : List K) : K :=
  match xs with
  | [] => 0
  | h :: t => t.foldl max h

/-- Model of `numpy.mean`: NaN (with a warning, not an exception) on an empty array,
otherwise the arithmetic mean. -/
def npMean (xs : List K) : FloatVal K :=
  match xs with
  | [] => .nan
  | _ :: _ => .val (xs.sum / (xs.length : K))

/-- Count of `(arr > g).sum()`: how many entries strictly exceed the threshold. -/
def countGT (xs : List K) (g : K) : ℕ :=
  xs.countP fun x => decide (g < x)

/-- IEEE addition on `FloatVal` (NaN propagates; `inf + neginf = nan`). -/
def FloatVal.add : FloatVal K → FloatVal K → FloatVal K
  | .nan, _ => .nan
  | _, .nan => .nan
  | .inf, .neginf => .nan
  | .neginf, .inf => .nan
  | .inf, _ => .inf
  | _, .inf => .inf
  | .neginf, _ => .neginf
  | _, .neginf => .neginf
  | .val a, .val b => .val (a + b)

/-- IEEE subtraction on `FloatVal`. -/
def FloatVal.sub : FloatVal K → FloatVal K → FloatVal K
  | .nan, _ => .nan
  | _, .nan => .nan
  | .inf, .inf => .nan
  | .neginf, .neginf => .nan
  | .inf, _ => .inf
  | _, .inf => .neginf
  | .neginf, _ => .neginf
  | _, .neginf => .inf
  | .val a, .val b => .val (a - b)

/-- IEEE division on `FloatVal`: `0/0 = nan`, `x/0 = ±inf`, NaN propagates. -/
def FloatVal.div : FloatVal K → FloatVal K → FloatVal K
  | .nan, _ => .nan
  | _, .nan => .nan
  | .inf, .inf => .nan
  | .inf, .neginf => .nan
  | .neginf, .inf => .nan
  | .neginf, .neginf => .nan
  | .inf, .val b => if 0 ≤ b then .inf else .neginf
  | .neginf, .val b => if 0 ≤ b then .neginf else .inf
  | .val _, .inf => .val 0
  | .val _, .neginf => .val 0
  | .val a, .val b =>
      if b = 0 then
        if a = 0 then .nan else if 0 < a then .inf else .neginf
      else .val (a / b)

/-- Python `range(0, stop, step)` (start fixed at 0). -/
def pyRange (stop step : ℕ) : List ℕ :=
  if step = 0 then []
  else (List.range ((stop + step - 1) / step)).map fun i => i * step

/-- Number of complete frames under the drop-trailing-frame policy. -/
def numFrames (n size hop : ℕ) : ℕ :=
  if n < size then 0 else (n - size) / hop + 1

/-- Modelled from the spec: the `FrameGenerator(buffer, size, hop)`
collaborator contract of §6 — successive frames of `size` samples taken
every `hop` samples, dropping any trailing incomplete frame. -/
def frameGen (xs : List K) (size hop : ℕ) : List (List K) :=
  (List.range (numFrames xs.length size hop)).map fun i => (xs.drop (i * hop)).take size

/-- An essentia `Pool`: ordered map from a key to the per-frame samples
appended under that key, keys kept in first-`add` order. -/
def Pool (K : Type) : Type := List (String × List K)

/-- Model of `pool.add(key, value)`: append to the key's sample list, creating the
key at the end on first use. -/
def poolAdd (p : Pool K) (k : String) (v : K) : Pool K :=
  match p with
  | [] => [(k, [v])]
  | (k', vs) :: t => if k' = k then (k', vs ++ [v]) :: t else (k', vs) :: poolAdd t k v

/-- Lookup of a pool key (`pool['key']`). -/
def poolLookup (p : Pool K) (k : String) : Option (List K) :=
  match p with
  | [] => none
  | (k', vs) :: t => if k' = k then some vs else poolLookup t k

/-- Model of `PoolAggregator(defaultStats=sl)(pool)`: for each pooled key and each
requested statistic, one entry keyed `"key.stat"`. -/
def aggPool (D : DSP K) (sl : List String) (p : Pool K) : List (String × K) :=
  p.flatMap fun kv => sl.map fun st => (kv.1 ++ "." ++ st, D.aggStat st kv.2)

/-- Lookup in an aggregated stats pool; a missing key raises `KeyError`. -/
def aggFind (a : List (String × K)) (k : String) : Except PyErr K :=
  match a with
  | [] => .error .keyErr
  | (k', v) :: t => if k' = k then .ok v else aggFind t k

/-- The attribute state of one extractor instance.  `stats : none` models
the *absence* of the `stats` attribute (it is only ever assigned in
`ExtractorBase.__init__` when the constructor argument is `None`). -/
structure Inst (K : Type) : Type where
  sample_rate : K
  pooling : Bool
  feature_names : List String
  stats : Option (List String)
  frame_size : Option ℕ
deriving DecidableEq, Repr

/-- How `ExtractorBase.__init__` handles the `stats` argument: the
attribute is created (with the default) only when the argument is `None`. -/
def baseStats (stats : Option (List String)) : Option (List String) :=
  match stats with
  | none => some ["mean", "stdev"]
  | some _ => none

/-- Reading `self.stats`: `AttributeError` when it was never assigned. -/
def readStats (self : Inst K) : Except PyErr (List String) :=
  match self.stats with
  | none => .error .attributeErr
  | some sl => .ok sl

/-- Model of `ExtractorBase.get_headers` (with the default join `"."`). -/
def get_headers (self : Inst K) : Except PyErr (List String) :=
  if self.pooling = false then .ok self.feature_names
  else
    eb (readStats self) fun sl =>
      .ok (self.feature_names.flatMap fun f => sl.map fun st => f ++ "." ++ st)

/-- Model of `np.linspace(-1.0, 1.0, 1000)`: 1000 evenly spaced points including both
endpoints. -/
def gaussDomain : List K :=
  (List.range 1000).map fun i => -1 + 2 * (i : K) / 999

/-- Lower edge of bin `i` of `np.histogram(_, 1001, (-1.0, 1.0))`. -/
def binLo (i : ℕ) : K :=
  -1 + 2 * (i : K) / 1001

/-- Model of `np.histogram(samples, 1001, (-1.0, 1.0))[0]`: counts per bin; every bin
is half-open except the last, which includes the right edge; samples outside
`[-1, 1]` are ignored. -/
def histCounts (samples : List K) : List ℕ :=
  (List.range 1001).map fun i =>
    samples.countP fun x =>
      decide ((binLo i : K) ≤ x) &&
        (if i = 1000 then decide (x ≤ (1 : K)) else decide (x < (binLo (i + 1) : K)))

/-- The `prime` array built by `Distortion.__call__`: `prime = np.zeros(1000)`
followed by `prime[i-1] = abs(hist[i] - hist[i-1])` for `i in range(1, 1000)`
— i.e. the 999 leading adjacent-bin deltas and a final entry left at zero
(`hist[1000]` is never read). -/
def primeOf (hist : List K) : List K :=
  ((List.range 999).map fun j => |hist.getD (j + 1) 0 - hist.getD j 0|) ++ [0]

/-- Modelled from the spec: "the first difference (absolute delta between
adjacent bins) of the histogram, yielding 1000 values" — all 1000 adjacent
deltas of a 1001-bin histogram. -/
def firstDifferenceSpec (hist : List K) : List K :=
  List.zipWith (fun a b => |b - a|) hist hist.tail

/-- Slice boundaries `range(0, max_sample, frame_size)` with `max_sample` appended — the slice
boundaries used by framed `PhaseCorrelation`. -/
def sliceIndices (n f : ℕ) : List ℕ :=
  pyRange n f ++ [n]

/-- The contiguous slices `audio[x1:x2]` taken between consecutive slice
boundaries. -/
def slicesOf (f : ℕ) (xs : List α) : List (List α) :=
  let is := sliceIndices xs.length f
  (is.zip is.tail).map fun ab => (xs.drop ab.1).take (ab.2 - ab.1)

/-- Constructor `Spectral.__init__`. -/
def spectralInit (sr : K) (stats : Option (List String)) : Inst K :=
  { sample_rate := sr, pooling := true,
    feature_names := ["rolloff_85", "rolloff_95", "spectral_centroid", "spectral_spread",
      "spectral_skewness", "spectral_kurtosis", "spectral_flatness", "spectral_entropy",
      "harsh", "energyLF"],
    stats := baseStats stats, frame_size := none }

/-- Constructor `CrestFactor.__init__` (`pooling = frame_size is not None`). -/
def crestFactorInit (sr : K) (fs : Option ℕ) (stats : Option (List String)) : Inst K :=
  { sample_rate := sr, pooling := fs.isSome, feature_names := ["crest_factor"],
    stats := baseStats stats, frame_size := fs }

/-- Constructor `Loudness.__init__`. -/
def loudnessInit (sr : K) (stats : Option (List String)) : Inst K :=
  { sample_rate := sr, pooling := false,
    feature_names := ["loudness_range", "microdynamics_95%", "microdynamics_100%",
      "peak_to_loudness", "top1db"],
    stats := baseStats stats, frame_size := none }

/-- Constructor `DynamicSpread.__init__` (`frame_size` defaults to 2048). -/
def dynamicSpreadInit (sr : K) (fs : ℕ) (stats : Option (List String)) : Inst K :=
  { sample_rate := sr, pooling := false, feature_names := ["dynamic_spread"],
    stats := baseStats stats, frame_size := some fs }

/-- Constructor `Distortion.__init__`. -/
def distortionInit (sr : K) (stats : Option (List String)) : Inst K :=
  { sample_rate := sr, pooling := false,
    feature_names := ["pmf_centroid", "pmf_spread", "pmf_skewness", "pmf_kurtosis",
      "pmf_flatness", "pmf_gauss"],
    stats := baseStats stats, frame_size := none }

/-- Constructor `StereoFeatures.__init__`. -/
def stereoFeaturesInit (sr : K) (stats : Option (List String)) : Inst K :=
  { sample_rate := sr, pooling := false, feature_names := ["side_mid_ratio", "lr_imbalance"],
    stats := baseStats stats, frame_size := none }

/-- Constructor `PhaseCorrelation.__init__` (`pooling = frame_size is not None`). -/
def phaseCorrelationInit (sr : K) (fs : Option ℕ) (stats : Option (List String)) : Inst K :=
  { sample_rate := sr, pooling := fs.isSome, feature_names := ["phase_correlation"],
    stats := baseStats stats, frame_size := fs }

/-- Method `Spectral.__call__`: `PoolAggregator(defaultStats=self.stats)` is built
first (reading `self.stats`), then the mono signal is framed (2048/1024),
ten spectral scalars are pooled per frame under `self.feature_names`, and
the aggregated pool is read back in `get_headers()` order.  A two-channel
array handed to the vector-input essentia algorithms fails. -/
def Spectral.call (D : DSP K) (self : Inst K) (audio : Buffer K) : Except PyErr (List K) :=
  eb (readStats self) fun sl =>
    match audio with
    | .stereo _ => .error .typeErr
    | .mono xs =>
      let keys := self.feature_names
      let pool := (frameGen xs 2048 1024).foldl (fun p frame =>
        let spec := D.spectrumMag (D.window frame)
        let sc := D.centroid (self.sample_rate / 2) spec
        let moments := D.centralMoments (self.sample_rate / 2) spec
        let sh := D.distShape moments
        let p := poolAdd p (keys.getD 0 "") (D.rolloff self.sample_rate (85 / 100) spec)
        let p := poolAdd p (keys.getD 1 "") (D.rolloff self.sample_rate (95 / 100) spec)
        let p := poolAdd p (keys.getD 2 "") sc
        let p := poolAdd p (keys.getD 3 "") sh.1
        let p := poolAdd p (keys.getD 4 "") sh.2.1
        let p := poolAdd p (keys.getD 5 "") sh.2.2
        let p := poolAdd p (keys.getD 6 "") (D.flatness spec)
        let p := poolAdd p (keys.getD 7 "") (D.entropy spec)
        let p := poolAdd p (keys.getD 8 "") (D.energyBandRatio self.sample_rate 2000 5000 spec)
        let p := poolAdd p (keys.getD 9 "") (D.energyBandRatio self.sample_rate 20 80 spec)
        p) []
      let agg := aggPool D sl pool
      eb (get_headers self) fun hs =>
        mapME (aggFind agg) hs

/-- Method `CrestFactor.__call__`: with a truthy frame size, non-overlapping frames
are pooled under `'crest_factor'` and aggregated via `self.stats`
(`PoolAggregator(defaultStats=self.stats)` reads the attribute before any
framing); otherwise a single whole-buffer crest factor is returned. -/
def CrestFactor.call (D : DSP K) (self : Inst K) (audio : Buffer K) : Except PyErr (List K) :=
  match self.frame_size with
  | some (f + 1) =>
    eb (readStats self) fun sl =>
      match audio with
      | .stereo _ => .error .typeErr
      | .mono xs =>
        let pool := (frameGen xs (f + 1) (f + 1)).foldl (fun p frame =>
          let frame_rms := D.rms frame
          let frame_peak := max |D.minval frame| |D.maxval frame|
          poolAdd p ("crest_factor") (frame_peak / frame_rms)) []
        let agg := aggPool D sl pool
        mapME (fun st => aggFind agg ("crest_factor." ++ st)) sl
  | _ =>
    match audio with
    | .stereo _ => .error .typeErr
    | .mono xs =>
      let full_rms := D.rms xs
      let full_peak := max |D.minval xs| |D.maxval xs|
      .ok [full_peak / full_rms]

/-- Method `Loudness.__call__`: EBU-R128 statistics, micro-dynamics percentile and
maximum, per-channel true-peak envelopes (the `top1db` counts both channel
slots from the *left* envelope, as in the source), and the dB-ratio
`peak_to_loudness`.  A mono array cannot feed the stereo loudness meter. -/
def Loudness.call (D : DSP K) (self : Inst K) (audio : Buffer K) : Except PyErr (List K) :=
  match audio with
  | .mono _ => .error .typeErr
  | .stereo xs =>
    let ls := D.ebur128 self.sample_rate xs
    let loudness_range := ls.2.2.2
    let micro_dynamics := List.zipWith (fun a b => a - b) ls.1 ls.2.1
    let ldr_95 := D.percentile 95 micro_dynamics
    eb (listMax micro_dynamics) fun ldr_max =>
    let true_peak_audio_l := D.truePeak self.sample_rate (xs.map Prod.fst)
    eb (listMax true_peak_audio_l) fun ml =>
    let true_peak_l := 20 * D.log10 ml
    let true_peak_audio_r := D.truePeak self.sample_rate (xs.map Prod.snd)
    eb (listMax true_peak_audio_r) fun mr =>
    let true_peak_r := 20 * D.log10 mr
    let true_peak := max true_peak_l true_peak_r
    let peak_to_loudness := true_peak / ls.2.2.1
    let top_1db_gain := D.pow10 (-(1 / 20))
    let top_1db_l := countGT true_peak_audio_l top_1db_gain
    let top_1db_r := countGT true_peak_audio_l top_1db_gain
    let top1db := ((top_1db_l + top_1db_r : ℕ) : K) /
      ((true_peak_audio_l.length + true_peak_audio_r.length : ℕ) : K)
    .ok [loudness_range, ldr_95, ldr_max, peak_to_loudness, top1db]

/-- Method `DynamicSpread.__call__`: Vickers loudness pooled per frame, aggregated
with the literal `['mean']`, then the mean absolute deviation from that
mean. -/
def DynamicSpread.call (D : DSP K) (self : Inst K) (audio : Buffer K) : Except PyErr (List K) :=
  match audio with
  | .stereo _ => .error .typeErr
  | .mono xs =>
    match self.frame_size with
    | none => .error .typeErr
    | some fsz =>
      let pool := (frameGen xs fsz fsz).foldl (fun p frame =>
        poolAdd p ("vdb") (D.vickers frame)) []
      let agg := aggPool D ["mean"] pool
      eb (aggFind agg ("vdb.mean")) fun vickers_mean =>
        match poolLookup pool ("vdb") with
        | none => .error .keyErr
        | some vdbs =>
          .ok [(vdbs.foldl (fun acc vdb => acc + |vdb - vickers_mean|) 0) / (vdbs.length : K)]

/-- The raveled sample sequence `np.histogram` sees (a stereo array is
flattened row-major). -/
def bufSamples (audio : Buffer K) : List K :=
  match audio with
  | .mono xs => xs
  | .stereo xs => xs.flatMap fun p => [p.1, p.2]

/-- Method `Distortion.__call__`: a 1001-bin amplitude histogram, shape statistics
on it, and the squared Pearson correlation between the code's `prime`
difference array and a Gaussian density (σ = 0.2) sampled on 1000 points. -/
def Distortion.call (D : DSP K) (self : Inst K) (audio : Buffer K) : Except PyErr (List K) :=
  let hist : List K := (histCounts (bufSamples audio)).map fun n => (n : K)
  let centroid := D.centroid 1 hist
  let sh := D.distShape (D.centralMoments 1 hist)
  let flatness := D.flatness hist
  let prime := primeOf hist
  let gauss_hist := (gaussDomain : List K).map fun x => D.normPdf x 0 (1 / 5)
  let correlation_xy := D.corrcoef prime gauss_hist
  let r_squared := correlation_xy ^ 2
  let _ := self
  .ok [centroid, sh.1, sh.2.1, sh.2.2, flatness, r_squared]

/-- Method `StereoFeatures.__call__`: sample-wise side/mid energies and channel
powers; the two ratios follow IEEE float semantics (`0/0 → NaN`), and a
one-channel array fails at `audio[:, 0]`. -/
def StereoFeatures.call (D : DSP K) (self : Inst K) (audio : Buffer K) :
    Except PyErr (List (FloatVal K)) :=
  match audio with
  | .mono _ => .error .indexErr
  | .stereo xs =>
    let sides := xs.map fun p => (p.1 - p.2) ^ 2
    let mids := xs.map fun p => (p.1 + p.2) ^ 2
    let sides_mid_ratio := FloatVal.div (npMean sides) (npMean mids)
    let left_power := npMean (xs.map fun p => p.1 ^ 2)
    let right_power := npMean (xs.map fun p => p.2 ^ 2)
    let lr_imbalance := FloatVal.div (FloatVal.sub right_power left_power)
      (FloatVal.add right_power left_power)
    let _ := D
    let _ := self
    .ok [sides_mid_ratio, lr_imbalance]

/-- Method `PhaseCorrelation.__call__`: with a truthy frame size the buffer is cut
at `range(0, n, frame_size) + [n]` and per-slice correlations are pooled
under `self.feature_names[0]`, then aggregated via `self.stats` (read only
after the slicing loop); otherwise one whole-buffer correlation.  Indexing
`audio[x1:x2, 0]` on a one-channel array fails as soon as a slice exists. -/
def PhaseCorrelation.call (D : DSP K) (self : Inst K) (audio : Buffer K) :
    Except PyErr (List K) :=
  let key := self.feature_names.getD 0 ""
  match self.frame_size with
  | some (f + 1) =>
    match audio with
    | .mono xs =>
      match xs with
      | _ :: _ => .error .indexErr
      | [] =>
        eb (readStats self) fun sl =>
          let agg := aggPool D sl []
          mapME (fun st => aggFind agg (key ++ "." ++ st)) sl
    | .stereo xs =>
      let corrs := (slicesOf (f + 1) xs).map fun s =>
        D.corrcoef (s.map Prod.fst) (s.map Prod.snd)
      let pool := corrs.foldl (fun p c => poolAdd p key c) []
      eb (readStats self) fun sl =>
        let agg := aggPool D sl pool
        mapME (fun st => aggFind agg (key ++ "." ++ st)) sl
  | _ =>
    match audio with
    | .mono _ => .error .indexErr
    | .stereo xs => .ok [D.corrcoef (xs.map Prod.fst) (xs.map Prod.snd)]

/-- Tags for the seven concrete extractors. -/
inductive EKind : Type where
  | spectral | crest | loudness | dynamicSpread | distortion | stereoFeatures | phaseCorrelation
deriving DecidableEq, Repr

/-- One extractor invocation, returning the feature vector (lifted into
`FloatVal` so all extractors share one result type) together with the
instance state after the call.  No `__call__` body in the source assigns any
attribute of `self`, so every branch returns the instance unchanged. -/
def runExtractor (D : DSP K) (k : EKind) (self : Inst K) (audio : Buffer K) :
    Except PyErr (List (FloatVal K) × Inst K) :=
  match k with
  | .spectral => eb (Spectral.call D self audio) fun v => .ok (v.map .val, self)
  | .crest => eb (CrestFactor.call D self audio) fun v => .ok (v.map .val, self)
  | .loudness => eb (Loudness.call D self audio) fun v => .ok (v.map .val, self)
  | .dynamicSpread => eb (DynamicSpread.call D self audio) fun v => .ok (v.map .val, self)
  | .distortion => eb (Distortion.call D self audio) fun v => .ok (v.map .val, self)
  | .stereoFeatures => eb (StereoFeatures.call D self audio) fun v => .ok (v, self)
  | .phaseCorrelation => eb (PhaseCorrelation.call D self audio) fun v => .ok (v.map .val, self)

/-- Claim-side counting for `top1db`: how many envelope samples have an
*absolute* value strictly above the threshold. -/
def countAbsGT (xs : List K) (g : K) : ℕ :=
  xs.countP fun x => decide (g < |x|)

end Defs

/-- A concrete collaborator instantiation over `ℝ` whose `RMS` and `MinMax`
fields carry their actual mathematical meaning (root mean square, minimum
and maximum of the samples), used for the sine-wave crest-factor check. -/
noncomputable def dspR : DSP ℝ where
  window := fun xs => xs
  spectrumMag := fun xs => xs
  centroid := fun _ _ => 0
  centralMoments := fun _ _ => (0, 0, 0)
  distShape := fun m => m
  flatness := fun _ => 0
  entropy := fun _ => 0
  energyBandRatio := fun _ _ _ _ => 0
  rolloff := fun _ _ _ => 0
  rms := fun xs => Real.sqrt ((xs.map fun x => x ^ 2).sum / (xs.length : ℝ))
  minval := fun xs => match xs with | [] => 0 | h :: t => t.foldl min h
  maxval := fun xs => match xs with | [] => 0 | h :: t => t.foldl max h
  ebur128 := fun _ _ => ([0], [0], 1, 0)
  truePeak := fun _ xs => xs
  vickers := fun _ => 0
  aggStat := fun _ xs => xs.sum
  corrcoef := fun _ _ => 0
  percentile := fun _ _ => 0
  log10 := fun x => x
  pow10 := fun x => x
  normPdf := fun x _ _ => x

/-- A concrete, fully computable collaborator instantiation over `ℚ`, used
to evaluate the translated code on explicit inputs. -/
def dspQ : DSP ℚ where
  window := fun xs => xs
  spectrumMag := fun xs => xs
  centroid := fun _ xs => xs.sum
  centralMoments := fun _ xs => (xs.sum, 0, 0)
  distShape := fun m => m
  flatness := fun xs => xs.sum
  entropy := fun xs => xs.sum
  energyBandRatio := fun _ _ _ xs => xs.sum
  rolloff := fun _ c xs => c * xs.sum
  rms := fun _ => 1
  minval := fun xs => match xs with | [] => 0 | h :: t => t.foldl min h
  maxval := fun xs => match xs with | [] => 0 | h :: t => t.foldl max h
  ebur128 := fun _ _ => ([1, 3], [0, 1], 2, 5)
  truePeak := fun _ xs => 1 :: xs
  vickers := fun xs => xs.sum
  aggStat := fun _ xs => xs.sum
  corrcoef := fun xs ys => xs.sum + ys.sum
  percentile := fun q xs => q + xs.sum
  log10 := fun x => x
  pow10 := fun x => x
  normPdf := fun x m s => x + m + s

/-- The histogram (cast to float, as the source does) of the single-sample
buffer `[1.0]`: all of the mass lands in the last bin. -/
def histQOne : List ℚ :=
  (histCounts [(1 : ℚ)]).map fun n => (n : ℚ)

section Thms

set_option linter.unusedSectionVars false

variable {K : Type} [LinearOrderedField K]

theorem eb_ok_iff {α β : Type} {e : Except PyErr α} {f : α → Except PyErr β} {b : β} :
    eb e f = .ok b ↔ ∃ a, e = .ok a ∧ f a = .ok b := by
  cases e with
  | error err => simp [eb]
  | ok a => simp [eb]

theorem eb_error_left {α β : Type} {err : PyErr} {f : α → Except PyErr β} :
    eb (.error err) f = .error err := rfl

theorem mapME_ok_length {α β : Type} {f : α → Except PyErr β} :
    ∀ {l : List α} {r : List β}, mapME f l = .ok r → r.length = l.length := by
  intro l
  induction l with
  | nil => intro r h; simp [mapME] at h; simp [← h]
  | cons a t ih =>
    intro r h
    simp only [mapME] at h
    rcases eb_ok_iff.mp h with ⟨b, _, h2⟩
    rcases eb_ok_iff.mp h2 with ⟨r', hr', h3⟩
    cases h3
    simp [ih hr']

/-- Evaluating `get_headers` on a pooling instance whose `stats` attribute exists. -/
theorem get_headers_pooling {self : Inst K} {sl : List String}
    (hp : self.pooling = true) (hs : self.stats = some sl) :
    get_headers self = .ok (self.feature_names.flatMap fun f => sl.map fun st => f ++ "." ++ st) := by
  simp [get_headers, hp, readStats, hs, eb]

/-- Evaluating `get_headers` on a non-pooling instance. -/
theorem get_headers_not_pooling {self : Inst K} (hp : self.pooling = false) :
    get_headers self = .ok self.feature_names := by
  simp [get_headers, hp]

/-- C3: when an extractor is constructed with an explicit (non-`None`)
stats list, `ExtractorBase.__init__` never assigns the `stats` attribute, so
(i) every constructor leaves the attribute absent in that case; (ii)
`get_headers()` on a pooling extractor raises `AttributeError`; (iii)
`compute` on `Spectral`, on framed `CrestFactor`, and on framed
`PhaseCorrelation` (whose slicing loop runs before the attribute read, so a
two-channel buffer reaches it) raises `AttributeError`; and (iv) the stats
attribute can only ever be the default `["mean", "stdev"]` or absent, so the
constructor argument can never change the aggregation statistics. -/
theorem c3_stats_never_assigned :
    (∀ (sr : K) (s : List String) (fs : Option ℕ) (n : ℕ),
      (spectralInit sr (some s)).stats = none ∧
      (crestFactorInit sr fs (some s)).stats = none ∧
      (loudnessInit sr (some s)).stats = none ∧
      (dynamicSpreadInit sr n (some s)).stats = none ∧
      (distortionInit sr (some s)).stats = none ∧
      (stereoFeaturesInit sr (some s)).stats = none ∧
      (phaseCorrelationInit sr fs (some s)).stats = none) ∧
    (∀ (sr : K) (s : List String) (f : ℕ),
      get_headers (spectralInit sr (some s)) = .error .attributeErr ∧
      get_headers (crestFactorInit sr (some f) (some s)) = .error .attributeErr ∧
      get_headers (phaseCorrelationInit sr (some f) (some s)) = .error .attributeErr) ∧
    (∀ (D : DSP K) (sr : K) (s : List String) (f : ℕ) (audio : Buffer K),
      Spectral.call D (spectralInit sr (some s)) audio = .error .attributeErr ∧
      CrestFactor.call D (crestFactorInit sr (some (f + 1)) (some s)) audio =
        .error .attributeErr) ∧
    (∀ (D : DSP K) (sr : K) (s : List String) (f : ℕ) (xs : List (K × K)),
      PhaseCorrelation.call D (phaseCorrelationInit sr (some (f + 1)) (some s)) (.stereo xs) =
        .error .attributeErr) ∧
    (∀ stats : Option (List String),
      baseStats stats = some ["mean", "stdev"] ∨ baseStats stats = none) := by
  refine ⟨fun sr s fs n => ?_, fun sr s f => ?_, fun D sr s f audio => ?_,
    fun D sr s f xs => ?_, fun stats => ?_⟩
  · exact ⟨rfl, rfl, rfl, rfl, rfl, rfl, rfl⟩
  · refine ⟨rfl, ?_, ?_⟩ <;>
      simp [get_headers, crestFactorInit, phaseCorrelationInit, baseStats, readStats, eb]
  · exact ⟨rfl, rfl⟩
  · rfl
  · cases stats with
    | none => exact Or.inl rfl
    | some s => exact Or.inr rfl

/-- C10: a second invocation of the same extractor instance on the same
buffer returns the identical vector; no `__call__` body mutates the
instance, so the post-call state equals the pre-call state. -/
theorem c10_idempotent (D : DSP K) (k : EKind) (self : Inst K) (audio : Buffer K)
    (v : List (FloatVal K)) (self' : Inst K)
    (h : runExtractor D k self audio = .ok (v, self')) :
    self' = self ∧ runExtractor D k self' audio = .ok (v, self') := by
  cases k <;>
    · simp only [runExtractor] at h ⊢
      rcases eb_ok_iff.mp h with ⟨w, hw, hpair⟩
      cases hpair
      exact ⟨rfl, by rw [hw]; rfl⟩

/-- Closed instance of `c10_idempotent` discharging its hypothesis on a
concrete run. -/
theorem c10_witness :
    stereoFeaturesInit (44100 : ℚ) none = stereoFeaturesInit (44100 : ℚ) none ∧
    runExtractor dspQ .stereoFeatures (stereoFeaturesInit (44100 : ℚ) none)
        (.stereo [(1, 0)]) =
      .ok ([.val 1, .val (-1)], stereoFeaturesInit (44100 : ℚ) none) :=
  c10_idempotent dspQ .stereoFeatures (stereoFeaturesInit (44100 : ℚ) none)
    (.stereo [(1, 0)]) [.val 1, .val (-1)] (stereoFeaturesInit (44100 : ℚ) none) (by
      simp [runExtractor, StereoFeatures.call, npMean, FloatVal.div, FloatVal.sub,
        FloatVal.add, eb])

/-- C2 counterexample: `StereoFeatures` given an *empty* (zero-length)
stereo buffer does not fail at all — both `np.mean` calls return NaN and the
call succeeds with `(nan, nan)`, contradicting "for every extractor,
compute(buffer) fails with a ShapeError when the buffer is empty". -/
theorem c2_counterexample :
    StereoFeatures.call dspQ (stereoFeaturesInit (44100 : ℚ) none) (.stereo []) =
      .ok [.nan, .nan] := rfl

/-- C2 amended: the stereo-only extractors (`Loudness`, `StereoFeatures`,
`PhaseCorrelation`) fail on a one-channel buffer, the mono vector-input
extractors fail on a two-channel buffer, and the extractors that aggregate a
frame/slice pool (`Spectral`, framed `CrestFactor`, `DynamicSpread`, framed
`PhaseCorrelation`) fail on an empty buffer because no frames are produced
and the aggregated-statistics lookup raises; but an empty buffer does *not*
make every extractor fail: `StereoFeatures` returns `(NaN, NaN)`. -/
theorem c2_amended :
    (∀ (D : DSP K) (sr : K) (xs : List K),
      Loudness.call D (loudnessInit sr none) (.mono xs) = .error .typeErr ∧
      StereoFeatures.call D (stereoFeaturesInit sr none) (.mono xs) = .error .indexErr ∧
      PhaseCorrelation.call D (phaseCorrelationInit sr none none) (.mono xs) =
        .error .indexErr) ∧
    (∀ (D : DSP K) (sr : K) (xs : List (K × K)),
      Spectral.call D (spectralInit sr none) (.stereo xs) = .error .typeErr ∧
      CrestFactor.call D (crestFactorInit sr none none) (.stereo xs) = .error .typeErr ∧
      DynamicSpread.call D (dynamicSpreadInit sr 2048 none) (.stereo xs) = .error .typeErr) ∧
    (∀ (D : DSP K) (sr : K) (f : ℕ),
      Spectral.call D (spectralInit sr none) (.mono []) = .error .keyErr ∧
      CrestFactor.call D (crestFactorInit sr (some (f + 1)) none) (.mono []) =
        .error .keyErr ∧
      DynamicSpread.call D (dynamicSpreadInit sr 2048 none) (.mono []) = .error .keyErr ∧
      PhaseCorrelation.call D (phaseCorrelationInit sr (some (f + 1)) none) (.stereo []) =
        .error .keyErr) ∧
    (∀ (D : DSP K) (sr : K),
      StereoFeatures.call D (stereoFeaturesInit sr none) (.stereo []) = .ok [.nan, .nan]) := by
  refine ⟨fun D sr xs => ⟨rfl, rfl, rfl⟩, fun D sr xs => ⟨rfl, rfl, rfl⟩,
    fun D sr f => ⟨rfl, ?_, rfl, ?_⟩, fun D sr => rfl⟩
  · simp [CrestFactor.call, crestFactorInit, baseStats, readStats, eb, frameGen, numFrames,
      Nat.succ_pos, aggPool, mapME, aggFind]
  · have hq : f / (f + 1) = 0 := Nat.div_eq_of_lt (by omega)
    simp [PhaseCorrelation.call, slicesOf, sliceIndices, pyRange, hq, phaseCorrelationInit,
      readStats, baseStats, eb, aggPool, mapME, aggFind]

theorem readStats_ok {self : Inst K} {sl : List String}
    (h : readStats self = .ok sl) : self.stats = some sl := by
  unfold readStats at h
  cases hs : self.stats with
  | none => rw [hs] at h; cases h
  | some s => rw [hs] at h; cases h; rfl

/-- C1 counterexample: the configuration `CrestFactor(sample_rate, frame_size=0)`
sets `pooling = True` (0 is not `None`) yet `if self.frame_size:` is falsy,
so `compute` returns a single scalar while `getHeaders()` has two entries —
the lengths differ. -/
theorem c1_counterexample :
    (CrestFactor.call dspQ (crestFactorInit (44100 : ℚ) (some 0) none)
        (.mono [1 / 2, 1 / 2])).map List.length = .ok 1 ∧
    (get_headers (crestFactorInit (44100 : ℚ) (some 0) none)).map List.length = .ok 2 :=
  ⟨rfl, rfl⟩

/-- C1 amended: for every extractor and every configuration whose frame
size, when present, is nonzero (the spec classifies a non-positive frame
size as a `ConfigurationError`), any successful `compute` returns a vector
of exactly the length of `get_headers()`; and on every pooling instance
whose stats attribute exists the headers are the feature names in
declaration order, each paired with every declared statistic in order,
joined by a dot (feature-major, statistic-minor). -/
theorem c1_len_and_header_order :
    (∀ (self : Inst K) (sl : List String), self.pooling = true → self.stats = some sl →
      get_headers self =
        .ok (self.feature_names.flatMap fun f => sl.map fun st => f ++ "." ++ st)) ∧
    (∀ (D : DSP K) (sr : K) (stats : Option (List String)) (audio : Buffer K)
        (v : List K) (hs : List String),
      Spectral.call D (spectralInit sr stats) audio = .ok v →
      get_headers (spectralInit sr stats) = .ok hs → v.length = hs.length) ∧
    (∀ (D : DSP K) (sr : K) (fs : Option ℕ) (stats : Option (List String))
        (audio : Buffer K) (v : List K) (hs : List String), fs ≠ some 0 →
      CrestFactor.call D (crestFactorInit sr fs stats) audio = .ok v →
      get_headers (crestFactorInit sr fs stats) = .ok hs → v.length = hs.length) ∧
    (∀ (D : DSP K) (sr : K) (stats : Option (List String)) (audio : Buffer K)
        (v : List K) (hs : List String),
      Loudness.call D (loudnessInit sr stats) audio = .ok v →
      get_headers (loudnessInit sr stats) = .ok hs → v.length = hs.length) ∧
    (∀ (D : DSP K) (sr : K) (n : ℕ) (stats : Option (List String)) (audio : Buffer K)
        (v : List K) (hs : List String),
      DynamicSpread.call D (dynamicSpreadInit sr n stats) audio = .ok v →
      get_headers (dynamicSpreadInit sr n stats) = .ok hs → v.length = hs.length) ∧
    (∀ (D : DSP K) (sr : K) (stats : Option (List String)) (audio : Buffer K)
        (v : List K) (hs : List String),
      Distortion.call D (distortionInit sr stats) audio = .ok v →
      get_headers (distortionInit sr stats) = .ok hs → v.length = hs.length) ∧
    (∀ (D : DSP K) (sr : K) (stats : Option (List String)) (audio : Buffer K)
        (v : List (FloatVal K)) (hs : List String),
      StereoFeatures.call D (stereoFeaturesInit sr stats) audio = .ok v →
      get_headers (stereoFeaturesInit sr stats) = .ok hs → v.length = hs.length) ∧
    (∀ (D : DSP K) (sr : K) (fs : Option ℕ) (stats : Option (List String))
        (audio : Buffer K) (v : List K) (hs : List String), fs ≠ some 0 →
      PhaseCorrelation.call D (phaseCorrelationInit sr fs stats) audio = .ok v →
      get_headers (phaseCorrelationInit sr fs stats) = .ok hs → v.length = hs.length) := by
  refine ⟨fun self sl hp hst => get_headers_pooling hp hst, ?_, ?_, ?_, ?_, ?_, ?_, ?_⟩
  · -- Spectral: the result is read back through `get_headers()` itself.
    intro D sr stats audio v hs h hh
    simp only [Spectral.call] at h
    rcases eb_ok_iff.mp h with ⟨sl, _, h2⟩
    cases audio with
    | stereo _ => cases h2
    | mono xs =>
      rcases eb_ok_iff.mp h2 with ⟨hs', hhs', hmap⟩
      rw [hh] at hhs'
      cases hhs'
      exact mapME_ok_length hmap
  · -- CrestFactor
    intro D sr fs stats audio v hs hfs h hh
    match fs, hfs with
    | none, _ =>
      simp only [CrestFactor.call, crestFactorInit] at h
      cases audio with
      | stereo _ => cases h
      | mono xs =>
        cases h
        simp [get_headers, crestFactorInit] at hh
        simp [← hh]
    | some (f + 1), _ =>
      simp only [CrestFactor.call, crestFactorInit] at h
      rcases eb_ok_iff.mp h with ⟨sl, hsl, h2⟩
      cases audio with
      | stereo _ => cases h2
      | mono xs =>
        have hstats : (crestFactorInit sr (some (f + 1)) stats).stats = some sl :=
          readStats_ok hsl
        rw [get_headers_pooling (by rfl) hstats] at hh
        cases hh
        rw [mapME_ok_length h2]
        simp [crestFactorInit]
  · -- Loudness
    intro D sr stats audio v hs h hh
    simp only [Loudness.call] at h
    cases audio with
    | mono _ => cases h
    | stereo xs =>
      rcases eb_ok_iff.mp h with ⟨m1, _, h2⟩
      rcases eb_ok_iff.mp h2 with ⟨m2, _, h3⟩
      rcases eb_ok_iff.mp h3 with ⟨m3, _, h4⟩
      cases h4
      simp [get_headers, loudnessInit] at hh
      simp [← hh]
  · -- DynamicSpread
    intro D sr n stats audio v hs h hh
    simp only [DynamicSpread.call, dynamicSpreadInit] at h
    cases audio with
    | stereo _ => cases h
    | mono xs =>
      rcases eb_ok_iff.mp h with ⟨m, _, h2⟩
      revert h2
      cases poolLookup ((frameGen xs n n).foldl (fun p frame => poolAdd p ("vdb") (D.vickers frame)) []) "vdb" with
      | none => intro h2; cases h2
      | some vdbs =>
        intro h2
        cases h2
        simp [get_headers, dynamicSpreadInit] at hh
        simp [← hh]
  · -- Distortion
    intro D sr stats audio v hs h hh
    simp only [Distortion.call] at h
    cases h
    simp [get_headers, distortionInit] at hh
    simp [← hh]
  · -- StereoFeatures
    intro D sr stats audio v hs h hh
    simp only [StereoFeatures.call] at h
    cases audio with
    | mono _ => cases h
    | stereo xs =>
      cases h
      simp [get_headers, stereoFeaturesInit] at hh
      simp [← hh]
  · -- PhaseCorrelation
    intro D sr fs stats audio v hs hfs h hh
    match fs, hfs with
    | none, _ =>
      simp only [PhaseCorrelation.call, phaseCorrelationInit] at h
      cases audio with
      | mono _ => cases h
      | stereo xs =>
        cases h
        simp [get_headers, phaseCorrelationInit] at hh
        simp [← hh]
    | some (f + 1), _ =>
      simp only [PhaseCorrelation.call, phaseCorrelationInit] at h
      have hlen : ∀ sl : List String,
          readStats (phaseCorrelationInit sr (some (f + 1)) stats) = .ok sl →
          (mapMEOk : v.length = sl.length) → v.length = hs.length := by
        intro sl hsl hv
        have hstats : (phaseCorrelationInit sr (some (f + 1)) stats).stats = some sl :=
          readStats_ok hsl
        rw [get_headers_pooling (by rfl) hstats] at hh
        cases hh
        rw [hv]
        simp [phaseCorrelationInit]
      cases audio with
      | mono xs =>
        cases xs with
        | cons a t => cases h
        | nil =>
          rcases eb_ok_iff.mp h with ⟨sl, hsl, h2⟩
          exact hlen sl hsl (mapME_ok_length h2)
      | stereo xs =>
        rcases eb_ok_iff.mp h with ⟨sl, hsl, h2⟩
        exact hlen sl hsl (mapME_ok_length h2)

/-- Closed instance of the CrestFactor conjunct of `c1_len_and_header_order`,
discharging its hypotheses on a concrete whole-signal run. -/
theorem c1_witness : ([(1 : ℚ)]).length = (["crest_factor"] : List String).length :=
  (c1_len_and_header_order).2.2.1 dspQ 1 none none (.mono [1]) [1] ["crest_factor"]
    (by simp)
    (by simp [CrestFactor.call, crestFactorInit, dspQ])
    (by simp [get_headers, crestFactorInit])

theorem getD_replicate_self {α : Type} (a : α) :
    ∀ (n j : ℕ), (List.replicate n a).getD j a = a := by
  intro n
  induction n with
  | zero => intro j; simp
  | succ n ih =>
    intro j
    cases j with
    | zero => simp [List.replicate_succ]
    | succ j => simp [List.replicate_succ, ih j]

theorem zipWith_replicate_same {α β γ : Type} (f : α → β → γ) (a : α) (b : β) :
    ∀ n, List.zipWith f (List.replicate n a) (List.replicate n b) =
      List.replicate n (f a b) := by
  intro n
  induction n with
  | zero => rfl
  | succ n ih => simp [List.replicate_succ, ih]

/-- On the buffer `[1.0]`, `np.histogram(audio, 1001, (-1.0, 1.0))` puts the
single sample in the last (1000th) bin. -/
theorem histQOne_eq : histQOne = List.replicate 1000 (0 : ℚ) ++ [1] := by
  have h1 : histCounts [(1 : ℚ)] = List.replicate 1000 0 ++ [1] := by
    unfold histCounts
    rw [show (1001 : ℕ) = 1000 + 1 from rfl, List.range_succ, List.map_append]
    congr 1
    · rw [List.eq_replicate_iff]
      refine ⟨by simp, ?_⟩
      intro b hb
      rcases List.mem_map.mp hb with ⟨i, hi, hbi⟩
      have hilt : i < 1000 := List.mem_range.mp hi
      have hle : binLo (i + 1) ≤ (1 : ℚ) := by
        unfold binLo
        have hc : ((i : ℚ) + 1) ≤ 1000 := by
          have := (Nat.cast_le (α := ℚ)).mpr (Nat.succ_le_of_lt hilt)
          push_cast at this
          linarith
        have hdiv : 2 * ((i : ℚ) + 1) / 1001 ≤ 2 := by
          rw [div_le_iff₀ (by norm_num : (0 : ℚ) < 1001)]
          linarith
        push_cast
        linarith
      subst hbi
      simp [List.countP_cons, Nat.ne_of_lt hilt, not_lt.mpr hle]
    · have hlo : binLo 1000 ≤ (1 : ℚ) := by
        unfold binLo
        push_cast
        norm_num
      simp [List.countP_cons, hlo]
  unfold histQOne
  rw [h1]
  simp

/-- The `prime` array the code builds from the `[1.0]` histogram is
identically zero: the only nonzero delta is the one between bins 999 and
1000, which the loop `for i in range(1, 1000)` never computes. -/
theorem primeOf_histQOne : primeOf histQOne = List.replicate 1000 (0 : ℚ) := by
  rw [histQOne_eq]
  unfold primeOf
  rw [show (1000 : ℕ) = 999 + 1 from rfl, List.replicate_succ' 999 (0 : ℚ)]
  congr 1
  rw [List.eq_replicate_iff]
  refine ⟨by simp, ?_⟩
  intro b hb
  rcases List.mem_map.mp hb with ⟨j, hj, hbj⟩
  have hjlt : j < 999 := List.mem_range.mp hj
  have hget : ∀ m < 1000,
      ((List.replicate 999 (0 : ℚ) ++ [0]) ++ [1]).getD m 0 = 0 := by
    intro m hm
    rw [← List.replicate_succ' 999 (0 : ℚ)]
    rw [List.getD_append _ _ _ _ (by simpa using hm)]
    exact getD_replicate_self 0 1000 m
  rw [← hbj, ← List.replicate_succ' 999 (0 : ℚ)] at *
  rw [hget (j + 1) (by omega), hget j (by omega)]
  simp

/-- The genuine first-difference sequence of the `[1.0]` histogram: 999
zeros followed by the delta `|hist[1000] - hist[999]| = 1`. -/
theorem firstDiff_histQOne :
    firstDifferenceSpec histQOne = List.replicate 999 (0 : ℚ) ++ [1] := by
  rw [histQOne_eq]
  unfold firstDifferenceSpec
  have htail : (List.replicate 1000 (0 : ℚ) ++ [1]).tail = List.replicate 999 (0 : ℚ) ++ [1] := by
    rw [List.replicate_succ]
    rfl
  rw [htail]
  rw [show List.replicate 1000 (0 : ℚ) ++ [1] =
        List.replicate 999 (0 : ℚ) ++ ([0] ++ [1]) from by
      rw [← List.append_assoc, ← List.replicate_succ' 999 (0 : ℚ)]]
  rw [show List.replicate 999 (0 : ℚ) ++ [1] = List.replicate 999 (0 : ℚ) ++ ([1] ++ []) from by
      simp]
  rw [List.zipWith_append _ _ _ _ _ (by simp)]
  rw [zipWith_replicate_same]
  simp

/-- C4: on the buffer `[1.0]` the histogram is `[0×1000, 1]`, yet the
`prime` array the code correlates against the Gaussian is identically zero:
the loop `for i in range(1, 1000)` computes only the 999 leading
adjacent-bin deltas and leaves `prime[999] = 0`, never reading
`hist[1000]` — so `pmf_gauss` is *not* the squared correlation of the full
1000-value first-difference sequence (which ends in `1` here).  The final
conjunct evaluates `Distortion.compute` at this input: the sequence handed
to the correlation collaborator is `[0]*1000`. -/
theorem c4_prime_drops_last_delta :
    histQOne = List.replicate 1000 (0 : ℚ) ++ [1] ∧
    primeOf histQOne = List.replicate 1000 (0 : ℚ) ∧
    firstDifferenceSpec histQOne = List.replicate 999 (0 : ℚ) ++ [1] ∧
    primeOf histQOne ≠ firstDifferenceSpec histQOne ∧
    (∀ D : DSP ℚ, Distortion.call D (distortionInit 44100 none) (.mono [1]) =
      .ok [D.centroid 1 histQOne,
           (D.distShape (D.centralMoments 1 histQOne)).1,
           (D.distShape (D.centralMoments 1 histQOne)).2.1,
           (D.distShape (D.centralMoments 1 histQOne)).2.2,
           D.flatness histQOne,
           (D.corrcoef (List.replicate 1000 (0 : ℚ))
             ((gaussDomain : List ℚ).map fun x => D.normPdf x 0 (1 / 5))) ^ 2]) := by
  refine ⟨histQOne_eq, primeOf_histQOne, firstDiff_histQOne, ?_, ?_⟩
  · rw [primeOf_histQOne, firstDiff_histQOne]
    intro heq
    have h999 : ((List.replicate 1000 (0 : ℚ)).getD 999 0) =
        ((List.replicate 999 (0 : ℚ) ++ [1]).getD 999 0) := by rw [heq]
    rw [getD_replicate_self (0 : ℚ) 1000 999,
      List.getD_append_right _ _ _ _ (by simp)] at h999
    simp at h999
  · intro D
    show Distortion.call D (distortionInit 44100 none) (.mono [1]) = _
    simp only [Distortion.call, bufSamples]
    rw [show (histCounts [(1 : ℚ)]).map (fun n => (n : ℚ)) = histQOne from rfl,
      primeOf_histQOne]

/-- C9: on a totally silent (all-zero) stereo buffer both `StereoFeatures`
outputs are the NaN produced by `0/0` — the call succeeds instead of
raising; on non-silent input the outputs are exactly
`mean((L−R)²)/mean((L+R)²)` (under float semantics) and
`(mean(R²) − mean(L²))/(mean(R²) + mean(L²))`, the latter with a provably
nonzero denominator; and whenever the denominator is nonzero the float
division agrees with the exact field division. -/
theorem c9_silence_nan_formulas :
    (∀ (D : DSP ℚ) (sr : ℚ) (n : ℕ),
      StereoFeatures.call D (stereoFeaturesInit sr none)
          (.stereo (List.replicate (n + 1) (0, 0))) =
        .ok [.nan, .nan]) ∧
    (∀ (D : DSP ℚ) (sr : ℚ) (xs : List (ℚ × ℚ)),
      (∃ q ∈ xs, q.1 ≠ 0 ∨ q.2 ≠ 0) →
      StereoFeatures.call D (stereoFeaturesInit sr none) (.stereo xs) =
        .ok [FloatVal.div
               (.val ((xs.map fun p => (p.1 - p.2) ^ 2).sum / (xs.length : ℚ)))
               (.val ((xs.map fun p => (p.1 + p.2) ^ 2).sum / (xs.length : ℚ))),
             .val ((((xs.map fun p => p.2 ^ 2).sum / (xs.length : ℚ)) -
                    ((xs.map fun p => p.1 ^ 2).sum / (xs.length : ℚ))) /
                   (((xs.map fun p => p.2 ^ 2).sum / (xs.length : ℚ)) +
                    ((xs.map fun p => p.1 ^ 2).sum / (xs.length : ℚ))))]) ∧
    (∀ S M : ℚ, M ≠ 0 → FloatVal.div (.val S) (.val M) = .val (S / M)) := by
  refine ⟨?_, ?_, ?_⟩
  · intro D sr n
    simp [StereoFeatures.call, List.replicate_succ, npMean, FloatVal.div, FloatVal.sub,
      FloatVal.add]
  · intro D sr xs hq
    rcases hq with ⟨q, hqmem, hq0⟩
    have hne : xs ≠ [] := List.ne_nil_of_mem hqmem
    have hn : (0 : ℚ) < (xs.length : ℚ) := by
      have := List.length_pos.mpr hne
      exact_mod_cast this
    have hl : (0 : ℚ) ≤ (xs.map fun p => p.1 ^ 2).sum / (xs.length : ℚ) :=
      div_nonneg (List.sum_nonneg (by
        intro x hx
        rcases List.mem_map.mp hx with ⟨p, _, hp⟩
        rw [← hp]; positivity)) hn.le
    have hr : (0 : ℚ) ≤ (xs.map fun p => p.2 ^ 2).sum / (xs.length : ℚ) :=
      div_nonneg (List.sum_nonneg (by
        intro x hx
        rcases List.mem_map.mp hx with ⟨p, _, hp⟩
        rw [← hp]; positivity)) hn.le
    have hpos : (0 : ℚ) <
        (xs.map fun p => p.2 ^ 2).sum / (xs.length : ℚ) +
        (xs.map fun p => p.1 ^ 2).sum / (xs.length : ℚ) := by
      rcases hq0 with h1 | h2
      · have hmem : q.1 ^ 2 ∈ xs.map fun p => p.1 ^ 2 :=
          List.mem_map_of_mem _ hqmem
        have hsum : q.1 ^ 2 ≤ (xs.map fun p => p.1 ^ 2).sum :=
          List.single_le_sum (by
            intro x hx
            rcases List.mem_map.mp hx with ⟨p, _, hp⟩
            rw [← hp]; positivity) _ hmem
        have : (0 : ℚ) < (xs.map fun p => p.1 ^ 2).sum / (xs.length : ℚ) :=
          div_pos (lt_of_lt_of_le (by positivity) hsum) hn
        linarith
      · have hmem : q.2 ^ 2 ∈ xs.map fun p => p.2 ^ 2 :=
          List.mem_map_of_mem _ hqmem
        have hsum : q.2 ^ 2 ≤ (xs.map fun p => p.2 ^ 2).sum :=
          List.single_le_sum (by
            intro x hx
            rcases List.mem_map.mp hx with ⟨p, _, hp⟩
            rw [← hp]; positivity) _ hmem
        have : (0 : ℚ) < (xs.map fun p => p.2 ^ 2).sum / (xs.length : ℚ) :=
          div_pos (lt_of_lt_of_le (by positivity) hsum) hn
        linarith
    cases xs with
    | nil => exact absurd rfl hne
    | cons x t =>
      simp only [StereoFeatures.call]
      have hmean : ∀ g : ℚ × ℚ → ℚ,
          npMean ((x :: t).map g) =
            .val (((x :: t).map g).sum / (((x :: t).length : ℕ) : ℚ)) := by
        intro g
        simp [npMean]
      rw [hmean, hmean, hmean, hmean]
      simp only [FloatVal.sub, FloatVal.add]
      have hdiv : FloatVal.div
          (.val (((x :: t).map fun p => p.2 ^ 2).sum / (((x :: t).length : ℕ) : ℚ) -
                 ((x :: t).map fun p => p.1 ^ 2).sum / (((x :: t).length : ℕ) : ℚ)))
          (.val (((x :: t).map fun p => p.2 ^ 2).sum / (((x :: t).length : ℕ) : ℚ) +
                 ((x :: t).map fun p => p.1 ^ 2).sum / (((x :: t).length : ℕ) : ℚ))) =
          .val ((((x :: t).map fun p => p.2 ^ 2).sum / (((x :: t).length : ℕ) : ℚ) -
                 ((x :: t).map fun p => p.1 ^ 2).sum / (((x :: t).length : ℕ) : ℚ)) /
                (((x :: t).map fun p => p.2 ^ 2).sum / (((x :: t).length : ℕ) : ℚ) +
                 ((x :: t).map fun p => p.1 ^ 2).sum / (((x :: t).length : ℕ) : ℚ))) := by
        simp only [FloatVal.div]
        rw [if_neg (ne_of_gt hpos)]
      rw [hdiv]
  · intro S M hM
    simp [FloatVal.div, hM]

/-- Closed instance of `c9_silence_nan_formulas` discharging its
non-silence hypothesis on the concrete buffer `[(1, 0)]`. -/
theorem c9_witness :
    (∃ q ∈ [((1 : ℚ), (0 : ℚ))], q.1 ≠ 0 ∨ q.2 ≠ 0) ∧
    StereoFeatures.call dspQ (stereoFeaturesInit (44100 : ℚ) none) (.stereo [(1, 0)]) =
      .ok [FloatVal.div
             (.val (([((1 : ℚ), (0 : ℚ))].map fun p => (p.1 - p.2) ^ 2).sum /
               ([((1 : ℚ), (0 : ℚ))].length : ℚ)))
             (.val (([((1 : ℚ), (0 : ℚ))].map fun p => (p.1 + p.2) ^ 2).sum /
               ([((1 : ℚ), (0 : ℚ))].length : ℚ))),
           .val (((([((1 : ℚ), (0 : ℚ))].map fun p => p.2 ^ 2).sum /
                    ([((1 : ℚ), (0 : ℚ))].length : ℚ)) -
                  (([((1 : ℚ), (0 : ℚ))].map fun p => p.1 ^ 2).sum /
                    ([((1 : ℚ), (0 : ℚ))].length : ℚ))) /
                 ((([((1 : ℚ), (0 : ℚ))].map fun p => p.2 ^ 2).sum /
                    ([((1 : ℚ), (0 : ℚ))].length : ℚ)) +
                  (([((1 : ℚ), (0 : ℚ))].map fun p => p.1 ^ 2).sum /
                    ([((1 : ℚ), (0 : ℚ))].length : ℚ))))] :=
  have hq : ∃ q ∈ [((1 : ℚ), (0 : ℚ))], q.1 ≠ 0 ∨ q.2 ≠ 0 :=
    ⟨(1, 0), by simp, Or.inl one_ne_zero⟩
  ⟨hq, (c9_silence_nan_formulas).2.1 dspQ 44100 [(1, 0)] hq⟩

theorem countGT_eq_countAbsGT {xs : List K} {g : K} (h : ∀ y ∈ xs, 0 ≤ y) :
    countGT xs g = countAbsGT xs g := by
  unfold countGT countAbsGT
  refine List.countP_congr ?_
  intro x hx
  rw [abs_of_nonneg (h x hx)]

theorem listMax_ok {xs : List K} {m : K} (h : listMax xs = .ok m) :
    xs ≠ [] ∧ npMax xs = m := by
  cases xs with
  | nil => cases h
  | cons a t =>
    cases h
    exact ⟨List.cons_ne_nil a t, rfl⟩

theorem npMax_map_abs {xs : List K} (hne : xs ≠ []) (h : ∀ x ∈ xs, 0 ≤ x) :
    npMax (xs.map fun y => |y|) = npMax xs := by
  cases xs with
  | nil => exact absurd rfl hne
  | cons a t =>
    show (t.map fun y => |y|).foldl max |a| = t.foldl max a
    clear hne
    induction t generalizing a with
    | nil => exact abs_of_nonneg (h a (by simp))
    | cons b t ih =>
      show (t.map fun y => |y|).foldl max (max |a| |b|) = t.foldl max (max a b)
      have ha : 0 ≤ a := h a (by simp)
      have hb : 0 ≤ b := h b (by simp)
      have habs : max |a| |b| = |max a b| := by
        rw [abs_of_nonneg ha, abs_of_nonneg hb, abs_of_nonneg (le_max_of_le_left ha)]
      rw [habs]
      exact ih (max a b) (by
        intro x hx
        rcases List.mem_cons.mp hx with hx1 | hx2
        · rw [hx1]; exact le_max_of_le_left ha
        · exact h x (by simp [hx2]))

/-- C5: in `Loudness.compute`, the returned `top1db` (index 4) equals the
combined over-threshold count divided by the combined envelope length, where
*both* channel slots count the left-channel true-peak envelope against
`10^(-1/20)`; for a (nonnegative) peak envelope, "exceeds the threshold" and
"absolute value exceeds the threshold" coincide. -/
theorem c5_top1db (D : DSP K) (sr : K) (stats : Option (List String))
    (xs : List (K × K)) (v : List K)
    (h : Loudness.call D (loudnessInit sr stats) (.stereo xs) = .ok v)
    (hnn : ∀ y ∈ D.truePeak sr (xs.map Prod.fst), 0 ≤ y) :
    v.get? 4 = some (
      ((countAbsGT (D.truePeak sr (xs.map Prod.fst)) (D.pow10 (-(1 / 20))) +
        countAbsGT (D.truePeak sr (xs.map Prod.fst)) (D.pow10 (-(1 / 20))) : ℕ) : K) /
      (((D.truePeak sr (xs.map Prod.fst)).length +
        (D.truePeak sr (xs.map Prod.snd)).length : ℕ) : K)) := by
  simp only [Loudness.call, loudnessInit] at h
  rcases eb_ok_iff.mp h with ⟨m1, _, h2⟩
  rcases eb_ok_iff.mp h2 with ⟨m2, _, h3⟩
  rcases eb_ok_iff.mp h3 with ⟨m3, _, h4⟩
  cases h4
  rw [countGT_eq_countAbsGT hnn]
  rfl

/-- C6: in `Loudness.compute`, the returned `peak_to_loudness` (index 3) is
the *ratio* (not difference) of the dB-scale true peak — the max over the
two channels of `20·log10` of the maximum (absolute) envelope value — and
the integrated loudness returned by the EBU-R128 meter. -/
theorem c6_true_peak (D : DSP K) (sr : K) (stats : Option (List String))
    (xs : List (K × K)) (v : List K)
    (h : Loudness.call D (loudnessInit sr stats) (.stereo xs) = .ok v)
    (hl : ∀ y ∈ D.truePeak sr (xs.map Prod.fst), 0 ≤ y)
    (hr : ∀ y ∈ D.truePeak sr (xs.map Prod.snd), 0 ≤ y) :
    v.get? 3 = some (
      (max (20 * D.log10 (npMax ((D.truePeak sr (xs.map Prod.fst)).map fun y => |y|)))
           (20 * D.log10 (npMax ((D.truePeak sr (xs.map Prod.snd)).map fun y => |y|)))) /
      (D.ebur128 sr xs).2.2.1) := by
  simp only [Loudness.call, loudnessInit] at h
  rcases eb_ok_iff.mp h with ⟨m1, _, h2⟩
  rcases eb_ok_iff.mp h2 with ⟨m2, hm2, h3⟩
  rcases eb_ok_iff.mp h3 with ⟨m3, hm3, h4⟩
  cases h4
  rcases listMax_ok hm2 with ⟨hne2, hmax2⟩
  rcases listMax_ok hm3 with ⟨hne3, hmax3⟩
  rw [npMax_map_abs hne2 hl, npMax_map_abs hne3 hr, hmax2, hmax3]
  rfl

/-- Closed instance of `c5_top1db` discharging its hypotheses on a concrete
run. -/
theorem c5_witness :
    (∀ y ∈ dspQ.truePeak 44100 ([((1 : ℚ), (2 : ℚ))].map Prod.fst), 0 ≤ y) ∧
    ([(5 : ℚ), 98, 2, 20, 1]).get? 4 = some (
      ((countAbsGT (dspQ.truePeak 44100 ([((1 : ℚ), (2 : ℚ))].map Prod.fst))
          (dspQ.pow10 (-(1 / 20))) +
        countAbsGT (dspQ.truePeak 44100 ([((1 : ℚ), (2 : ℚ))].map Prod.fst))
          (dspQ.pow10 (-(1 / 20))) : ℕ) : ℚ) /
      (((dspQ.truePeak 44100 ([((1 : ℚ), (2 : ℚ))].map Prod.fst)).length +
        (dspQ.truePeak 44100 ([((1 : ℚ), (2 : ℚ))].map Prod.snd)).length : ℕ) : ℚ)) :=
  ⟨by norm_num [dspQ],
   c5_top1db dspQ 44100 none [(1, 2)] [5, 98, 2, 20, 1]
     (by simp [Loudness.call, loudnessInit, dspQ, listMax, countGT, eb]; norm_num)
     (by norm_num [dspQ])⟩

/-- Closed instance of `c6_true_peak` discharging its hypotheses on a
concrete run. -/
theorem c6_witness :
    (∀ y ∈ dspQ.truePeak 44100 ([((1 : ℚ), (2 : ℚ))].map Prod.fst), 0 ≤ y) ∧
    ([(5 : ℚ), 98, 2, 20, 1]).get? 3 = some (
      (max (20 * dspQ.log10 (npMax ((dspQ.truePeak 44100
              ([((1 : ℚ), (2 : ℚ))].map Prod.fst)).map fun y => |y|)))
           (20 * dspQ.log10 (npMax ((dspQ.truePeak 44100
              ([((1 : ℚ), (2 : ℚ))].map Prod.snd)).map fun y => |y|)))) /
      (dspQ.ebur128 44100 [(1, 2)]).2.2.1) :=
  ⟨by norm_num [dspQ],
   c6_true_peak dspQ 44100 none [(1, 2)] [5, 98, 2, 20, 1]
     (by simp [Loudness.call, loudnessInit, dspQ, listMax, countGT, eb]; norm_num)
     (by norm_num [dspQ]) (by norm_num [dspQ])⟩

/-- C8: `CrestFactor` without a configured frame size returns the single
scalar `max(|min|, |max|) / RMS` of the whole buffer with no aggregation;
instantiating the `MinMax`/`RMS` collaborators with their mathematical
meaning, one period of a full-scale unit sine (sampled at four points per
period) yields exactly `√2`. -/
theorem c8_crest_whole :
    (∀ (F : Type) [LinearOrderedField F] (D : DSP F) (sr : F)
        (stats : Option (List String)) (xs : List F),
      CrestFactor.call D (crestFactorInit sr none stats) (.mono xs) =
        .ok [max |D.minval xs| |D.maxval xs| / D.rms xs]) ∧
    CrestFactor.call dspR (crestFactorInit (44100 : ℝ) none none) (.mono [0, 1, 0, -1]) =
      .ok [Real.sqrt 2] := by
  refine ⟨fun F _ D sr stats xs => rfl, ?_⟩
  have hmin : dspR.minval [(0 : ℝ), 1, 0, -1] = -1 := by
    show List.foldl min (0 : ℝ) [1, 0, -1] = -1
    norm_num [min_def]
  have hmax : dspR.maxval [(0 : ℝ), 1, 0, -1] = 1 := by
    show List.foldl max (0 : ℝ) [1, 0, -1] = 1
    norm_num [max_def]
  have hrms : dspR.rms [(0 : ℝ), 1, 0, -1] = Real.sqrt (1 / 2) := by
    show Real.sqrt ((([(0 : ℝ), 1, 0, -1]).map fun x => x ^ 2).sum /
      (([(0 : ℝ), 1, 0, -1]).length : ℝ)) = Real.sqrt (1 / 2)
    norm_num
  show Except.ok [max |dspR.minval [(0 : ℝ), 1, 0, -1]| |dspR.maxval [(0 : ℝ), 1, 0, -1]| /
    dspR.rms [(0 : ℝ), 1, 0, -1]] = Except.ok [Real.sqrt 2]
  rw [hmin, hmax, hrms, show Real.sqrt (1 / 2) = (Real.sqrt 2)⁻¹ from by
    rw [one_div, Real.sqrt_inv]]
  norm_num

theorem pyRange_zero_stop (f : ℕ) : pyRange 0 f = [] := by
  unfold pyRange
  by_cases hf : f = 0
  · simp [hf]
  · have h : (f - 1) / f = 0 := Nat.div_eq_of_lt (by omega)
    simp [hf, h]

theorem pyRange_shift {f n : ℕ} (hf : 0 < f) (hn : 0 < n) :
    pyRange n f = 0 :: (pyRange (n - f) f).map (· + f) := by
  unfold pyRange
  rw [if_neg (by omega : ¬ f = 0), if_neg (by omega : ¬ f = 0)]
  have hm : (n + f - 1) / f = (n - 1) / f + 1 := by
    rw [show n + f - 1 = (n - 1) + f from by omega, Nat.add_div_right _ hf]
  rw [hm, List.range_succ_eq_map]
  by_cases hnf : n ≤ f
  · have h1 : (n - 1) / f = 0 := Nat.div_eq_of_lt (by omega)
    have h2 : n - f = 0 := by omega
    have h3 : (0 + f - 1) / f = 0 := Nat.div_eq_of_lt (by omega)
    rw [h1, h2, h3]
    simp
  · push_neg at hnf
    have h2 : n - f + f - 1 = n - 1 := by omega
    rw [h2]
    simp only [List.map_cons, Nat.zero_mul, List.map_map]
    congr 1
    refine List.map_congr_left ?_
    intro i _
    simp [Nat.succ_mul]

theorem slicesOf_nil {α : Type} (f : ℕ) : slicesOf f ([] : List α) = [] := by
  simp [slicesOf, sliceIndices, pyRange_zero_stop]

theorem sliceIndices_shift {f n : ℕ} (hf : 0 < f) (hfn : f < n) :
    sliceIndices n f = 0 :: (sliceIndices (n - f) f).map (· + f) := by
  unfold sliceIndices
  rw [pyRange_shift hf (by omega)]
  simp [List.map_append]
  omega

theorem slicesOf_cons {α : Type} {f : ℕ} (hf : 0 < f) {xs : List α} (hne : xs ≠ []) :
    slicesOf f xs = xs.take f :: slicesOf f (xs.drop f) := by
  have hn : 0 < xs.length := List.length_pos.mpr hne
  by_cases hnf : xs.length ≤ f
  · have hdrop : xs.drop f = [] := List.drop_eq_nil_of_le hnf
    have htake : xs.take f = xs := List.take_of_length_le hnf
    rw [hdrop, slicesOf_nil, htake]
    unfold slicesOf sliceIndices
    rw [pyRange_shift hf hn, show xs.length - f = 0 from by omega, pyRange_zero_stop]
    simp
  · push_neg at hnf
    unfold slicesOf
    rw [sliceIndices_shift hf hnf]
    obtain ⟨kt, hkt⟩ : ∃ kt, sliceIndices (xs.length - f) f = 0 :: kt := by
      unfold sliceIndices
      rw [pyRange_shift hf (by omega)]
      exact ⟨_, rfl⟩
    rw [hkt]
    simp only [List.map_cons, Nat.zero_add, List.tail_cons]
    rw [List.zip_cons_cons, List.map_cons]
    congr 1
    rw [List.length_drop, hkt,
      show (f :: List.map (· + f) kt) = List.map (· + f) (0 :: kt) from by simp,
      List.zip_map, List.map_map]
    simp only [List.tail_cons]
    refine List.map_congr_left ?_
    intro ab _
    show (xs.drop (ab.1 + f)).take ((ab.2 + f) - (ab.1 + f)) =
      ((xs.drop f).drop ab.1).take (ab.2 - ab.1)
    rw [List.drop_drop, Nat.add_sub_add_right, Nat.add_comm f ab.1]

theorem poolAdd_same_key (k : String) (c : K) (vs : List K) :
    poolAdd [(k, vs)] k c = [(k, vs ++ [c])] := by
  simp [poolAdd]

theorem pool_fold_single_key (k : String) :
    ∀ (cs : List K) (vs : List K),
      cs.foldl (fun p c => poolAdd p k c) [(k, vs)] = [(k, vs ++ cs)] := by
  intro cs
  induction cs with
  | nil => intro vs; simp
  | cons c t ih =>
    intro vs
    show t.foldl (fun p c => poolAdd p k c) (poolAdd [(k, vs)] k c) = _
    rw [poolAdd_same_key, ih]
    simp

theorem pool_fold_single_key_nil (k : String) (c : K) (cs : List K) :
    (c :: cs).foldl (fun p c => poolAdd p k c) [] = [(k, c :: cs)] := by
  show cs.foldl (fun p c => poolAdd p k c) (poolAdd [] k c) = _
  rw [show poolAdd ([] : Pool K) k c = [(k, [c])] from rfl, pool_fold_single_key]
  simp

/-- C7: in framed `PhaseCorrelation`, the slice boundaries
`range(0, n, frame_size) + [n]` cut the buffer into contiguous slices whose
concatenation is exactly the buffer (no sample dropped, none repeated),
every slice before the last has exactly the configured length, every slice
is nonempty and at most the configured length (the final slice covers the
remainder), and on a nonempty stereo buffer the call returns the per-slice
L/R correlations aggregated by each declared statistic. -/
theorem c7_phase_partition (f : ℕ) (hf : 0 < f) (xs : List (ℚ × ℚ)) :
    (slicesOf f xs).flatten = xs ∧
    (∀ s ∈ (slicesOf f xs).dropLast, s.length = f) ∧
    (∀ s ∈ slicesOf f xs, 0 < s.length ∧ s.length ≤ f) ∧
    (∀ (D : DSP ℚ) (sr : ℚ), xs ≠ [] →
      PhaseCorrelation.call D (phaseCorrelationInit sr (some f) none) (.stereo xs) =
        .ok (["mean", "stdev"].map fun st =>
          D.aggStat st ((slicesOf f xs).map fun s =>
            D.corrcoef (s.map Prod.fst) (s.map Prod.snd)))) := by
  have main : ∀ (N : ℕ) (ys : List (ℚ × ℚ)), ys.length ≤ N →
      (slicesOf f ys).flatten = ys ∧
      (∀ s ∈ (slicesOf f ys).dropLast, s.length = f) ∧
      (∀ s ∈ slicesOf f ys, 0 < s.length ∧ s.length ≤ f) := by
    intro N
    induction N with
    | zero =>
      intro ys hy
      have hnil : ys = [] := List.eq_nil_of_length_eq_zero (by omega)
      subst hnil
      simp [slicesOf_nil]
    | succ N ih =>
      intro ys hy
      cases ys with
      | nil => simp [slicesOf_nil]
      | cons a t =>
        rw [slicesOf_cons hf (by simp)]
        have hlen : ((a :: t).drop f).length ≤ N := by
          rw [List.length_drop]
          simp only [List.length_cons] at hy ⊢
          omega
        obtain ⟨ih1, ih2, ih3⟩ := ih _ hlen
        refine ⟨?_, ?_, ?_⟩
        · rw [List.flatten_cons, ih1, List.take_append_drop]
        · cases hrec : slicesOf f ((a :: t).drop f) with
          | nil => simp
          | cons s0 srest =>
            rw [List.dropLast_cons₂]
            intro s hs
            rcases List.mem_cons.mp hs with h1 | h2
            · subst h1
              have hd : (a :: t).drop f ≠ [] := by
                intro hnil
                rw [hnil, slicesOf_nil] at hrec
                cases hrec
              have hfle : f ≤ (a :: t).length := by
                by_contra hcon
                push_neg at hcon
                exact hd (List.drop_eq_nil_of_le (by omega))
              rw [List.length_take]
              exact min_eq_left hfle
            · refine ih2 s ?_
              rw [hrec]
              exact h2
        · intro s hs
          rcases List.mem_cons.mp hs with h1 | h2
          · subst h1
            refine ⟨?_, ?_⟩
            · rw [List.length_take, lt_min_iff]
              exact ⟨hf, by simp⟩
            · rw [List.length_take]
              exact min_le_left _ _
          · exact ih3 s h2
  obtain ⟨h1, h2, h3⟩ := main xs.length xs le_rfl
  refine ⟨h1, h2, h3, ?_⟩
  intro D sr hne
  obtain ⟨g, rfl⟩ : ∃ g, f = g + 1 := ⟨f - 1, by omega⟩
  have hslice : slicesOf (g + 1) xs = xs.take (g + 1) :: slicesOf (g + 1) (xs.drop (g + 1)) :=
    slicesOf_cons (by omega) hne
  have hs1 : ("phase_correlation.mean" : String) ≠ "phase_correlation.stdev" := by decide
  simp [PhaseCorrelation.call, phaseCorrelationInit, readStats, baseStats, eb,
    aggPool, poolAdd, mapME, aggFind, hslice, pool_fold_single_key, hs1]

/-- Closed instance of `c7_phase_partition` discharging its hypotheses on a
concrete framed run (frame size 2, five stereo samples: slices of length
2, 2 and 1). -/
theorem c7_witness :
    (slicesOf 2 [((1 : ℚ), (2 : ℚ)), (3, 4), (5, 6), (7, 8), (9, 10)]).flatten =
      [((1 : ℚ), (2 : ℚ)), (3, 4), (5, 6), (7, 8), (9, 10)] ∧
    PhaseCorrelation.call dspQ (phaseCorrelationInit (44100 : ℚ) (some 2) none)
        (.stereo [((1 : ℚ), (2 : ℚ)), (3, 4), (5, 6), (7, 8), (9, 10)]) =
      .ok (["mean", "stdev"].map fun st =>
        dspQ.aggStat st
          ((slicesOf 2 [((1 : ℚ), (2 : ℚ)), (3, 4), (5, 6), (7, 8), (9, 10)]).map fun s =>
            dspQ.corrcoef (s.map Prod.fst) (s.map Prod.snd))) :=
  ⟨(c7_phase_partition 2 (by norm_num) _).1,
   (c7_phase_partition 2 (by norm_num) _).2.2.2 dspQ 44100 (by simp)⟩

end Thms

end Uvic
